import Mathlib

/-!
Shallow embedding of the Custom Properties Generator add-on
(`custom_properties_generator/__init__.py`) and verification of its
specification claims.

The embedding models:
- `zero_pad` (source line 24),
- `idprop_apply_ui` (source lines 27-76),
- the name-composition and batch loop of `CPG_OT_Generate.execute`
  (source lines 238-312), and
- the `ALL_MATERIALS` target resolution (source lines 227-233).

Python dynamic values are modelled by the inductive `Value`; Python ints
are `Int`, Python floats are `Rat` (the normalization and coercion logic
only compares and converts, so exact rationals are a faithful carrier),
Python strings are `String`.  A Blender ID block's custom-property store
is an insertion-ordered association list from keys to a stored value plus
per-key UI metadata, mirroring a Python dict.  Uncaught Python exceptions
are modelled by `Option` (`none` = the call raises).
-/

namespace CPG

/-- Python runtime values relevant to idprop storage: int, float, bool, str.
Floats are carried as rationals; only comparison/conversion is performed on
them in the source, never rounding arithmetic. -/
inductive Value where
  | VInt (n : Int)
  | VFloat (q : Rat)
  | VBool (b : Bool)
  | VStr (s : String)
deriving DecidableEq, Repr

/-- Per-key UI metadata of an id property, as set via
`id_properties_ui(key).update_from_dict(data)`.  A `none` field was never
set by an update. -/
structure UiMeta where
  description : Option String
  min_val : Option Value
  max_val : Option Value
  soft_min : Option Value
  soft_max : Option Value
  default : Option Value
  subtype : Option String
deriving DecidableEq, Repr

/-- Metadata of a freshly created id property: nothing set yet. -/
def UiMeta.empty : UiMeta := ⟨none, none, none, none, none, none, none⟩

/-- One entry of an id-property store: the stored value and its UI metadata. -/
structure Entry where
  val : Value
  meta : UiMeta
deriving DecidableEq, Repr

/-- A Blender ID block's custom-property store (`idblock` in the source):
an insertion-ordered key/value dict. -/
abbrev Container := List (String × Entry)

/-- Dict lookup: first (and in any reachable state, only) entry with the key. -/
def lookupC : Container → String → Option Entry
  | [], _ => none
  | p :: rest, k => if p.1 = k then some p.2 else lookupC rest k

/-- Python `key in idblock`. -/
def containsC (c : Container) (k : String) : Bool :=
  (lookupC c k).isSome

/-- Python `idblock[key] = v`: overwrite the value of an existing key keeping
its UI metadata, or append a fresh entry with empty metadata. -/
def setVal (c : Container) (k : String) (v : Value) : Container :=
  if containsC c k then
    c.map (fun p => if p.1 = k then (p.1, ⟨v, p.2.meta⟩) else p)
  else
    c ++ [(k, ⟨v, UiMeta.empty⟩)]

/-- The four property types of the `prop_type` EnumProperty. -/
inductive PType where
  | INT
  | FLOAT
  | BOOL
  | STRING
deriving DecidableEq, Repr

/-- The float `subtype` EnumProperty identifiers. -/
def floatSubtypes : List String :=
  ["NONE", "PERCENTAGE", "FACTOR", "ANGLE", "TIME", "DISTANCE"]

-- ---------- Python builtin conversions ----------

/-- Decimal value of a digit list (most significant first). -/
def natOfDigits (ds : List Char) : Nat :=
  ds.foldl (fun a c => a * 10 + (c.toNat - 48)) 0

/-- Python `int(s)` on a string: strip whitespace, optional sign, decimal
digits; anything else raises (`none`).  (Exotic accepted forms such as
digit-group underscores are not modelled; no claim depends on them.) -/
def pyIntOfStr (s : String) : Option Int :=
  match (s.trim).data with
  | [] => none
  | c :: cs =>
    let signed : Int × List Char :=
      if c = '-' then (-1, cs) else if c = '+' then (1, cs) else (1, c :: cs)
    if signed.2 ≠ [] ∧ signed.2.all Char.isDigit then
      some (signed.1 * (natOfDigits signed.2 : Int))
    else
      none

/-- Python `float(s)` on a string: strip whitespace, optional sign, decimal
digits with an optional fractional part; anything else raises (`none`).
(Scientific notation and inf/nan literals are not modelled; no claim
depends on them.) -/
def pyFloatOfStr (s : String) : Option Rat :=
  match (s.trim).data with
  | [] => none
  | c :: cs =>
    let signed : Rat × List Char :=
      if c = '-' then (-1, cs) else if c = '+' then (1, cs) else (1, c :: cs)
    let parts := signed.2
    if parts.all Char.isDigit ∧ parts ≠ [] then
      some (signed.1 * (natOfDigits parts : Rat))
    else
      match parts.splitOn '.' with
      | [ip, fp] =>
        if (ip.all Char.isDigit ∧ fp.all Char.isDigit) ∧ (ip ≠ [] ∨ fp ≠ []) then
          some (signed.1 * ((natOfDigits ip : Rat) +
            (natOfDigits fp : Rat) / ((10 : Rat) ^ fp.length)))
        else none
      | _ => none

/-- Truncation toward zero, the behaviour of Python `int(float)`. -/
def ratTrunc (q : Rat) : Int :=
  q.num.sign * ((q.num.natAbs / q.den : Nat) : Int)

/-- Python `int(v)`: may raise on a non-numeric string. -/
def pyIntOfVal : Value → Option Int
  | .VInt n => some n
  | .VFloat q => some (ratTrunc q)
  | .VBool b => some (cond b 1 0)
  | .VStr s => pyIntOfStr s

/-- Python `float(v)`: may raise on a non-numeric string. -/
def pyFloatOfVal : Value → Option Rat
  | .VInt n => some (n : Rat)
  | .VFloat q => some q
  | .VBool b => some (cond b 1 0)
  | .VStr s => pyFloatOfStr s

/-- Python `bool(v)`: truthiness, never raises. -/
def pyBoolOfVal : Value → Bool
  | .VInt n => n ≠ 0
  | .VFloat q => q ≠ 0
  | .VBool b => b
  | .VStr s => s ≠ ""

/-- Rendering of a float value by Python `str`.  Integral floats render as
`"n.0"`; the digit strings of non-integral floats are abstracted by the
rational's representation (no claim depends on them). -/
def floatStr (q : Rat) : String :=
  if q.den = 1 then toString q.num ++ ".0" else toString q

/-- Python `str(v)`: never raises. -/
def pyStrOfVal : Value → String
  | .VInt n => toString n
  | .VFloat q => floatStr q
  | .VBool b => cond b "True" "False"
  | .VStr s => s

-- ---------- idprop_apply_ui (source lines 27-76) ----------

/-- The keyword arguments of `idprop_apply_ui` after `idblock` and `key`. -/
structure ApplyArgs where
  ptype : PType
  default : Option Value
  min_val : Option Value
  max_val : Option Value
  soft_min : Option Value
  soft_max : Option Value
  desc : Option String
  subtype : Option String
deriving DecidableEq, Repr

/-- The creation branch of `idprop_apply_ui` (source lines 32-42): the value
written for a missing key, a type conversion of the supplied default or of a
type-appropriate fallback.  `none` models the conversion raising. -/
def createVal (t : PType) (default : Option Value) : Option Value :=
  match t with
  | .INT => (pyIntOfVal (default.getD (.VInt 0))).map .VInt
  | .FLOAT => (pyFloatOfVal (default.getD (.VFloat 0))).map .VFloat
  | .BOOL => some (.VBool (pyBoolOfVal (default.getD (.VBool false))))
  | .STRING => some (.VStr (pyStrOfVal (default.getD (.VStr ""))))

/-- The ensure-type coercion of `idprop_apply_ui` (source lines 45-55): the
stored value converted to the chosen type.  `none` models the conversion
raising (which the source catches, leaving the value as-is). -/
def coerceVal (t : PType) (v : Value) : Option Value :=
  match t with
  | .INT => (pyIntOfVal v).map .VInt
  | .FLOAT => (pyFloatOfVal v).map .VFloat
  | .BOOL => some (.VBool (pyBoolOfVal v))
  | .STRING => some (.VStr (pyStrOfVal v))

/-- Dict field update: a field present in the update dict replaces the old
one, an absent field leaves it. -/
def oupd {α : Type} (new old : Option α) : Option α :=
  match new with
  | some v => some v
  | none => old

/-- The `data` dict built by `idprop_apply_ui` (source lines 58-71):
description for every type; min/max/soft bounds, default and subtype for
INT and FLOAT; default only for BOOL and STRING. -/
def metaDataOf (a : ApplyArgs) : UiMeta :=
  match a.ptype with
  | .INT => ⟨a.desc, a.min_val, a.max_val, a.soft_min, a.soft_max, a.default, a.subtype⟩
  | .FLOAT => ⟨a.desc, a.min_val, a.max_val, a.soft_min, a.soft_max, a.default, a.subtype⟩
  | .BOOL => ⟨a.desc, none, none, none, none, a.default, none⟩
  | .STRING => ⟨a.desc, none, none, none, none, a.default, none⟩

/-- `ui.update_from_dict(data)`: fields present in `data` overwrite, absent
fields are kept.  (The source skips the call when `data` is empty, which
coincides with this merge being the identity.) -/
def updMeta (m : UiMeta) (a : ApplyArgs) : UiMeta :=
  let d := metaDataOf a
  ⟨oupd d.description m.description, oupd d.min_val m.min_val,
   oupd d.max_val m.max_val, oupd d.soft_min m.soft_min,
   oupd d.soft_max m.soft_max, oupd d.default m.default,
   oupd d.subtype m.subtype⟩

/-- Metadata application (source lines 58-71) on the stored entry of `k`. -/
def setMetaU (c : Container) (k : String) (a : ApplyArgs) : Container :=
  c.map (fun p => if p.1 = k then (p.1, ⟨p.2.val, updMeta p.2.meta a⟩) else p)

/-- The ensure-type step (source lines 45-55): convert the stored value of
`k` to the chosen type; a raising conversion is caught and the value kept. -/
def ensureStep (c : Container) (k : String) (t : PType) : Container :=
  match lookupC c k with
  | some e =>
    match coerceVal t e.val with
    | some v => setVal c k v
    | none => c
  | none => c

/-- Model of `idprop_apply_ui(idblock, key, ...)` (source lines 27-76):
create the raw property if missing, ensure its value matches the chosen
type, then apply UI metadata.  `none` models an uncaught exception in the
creation branch. -/
def applyUi (c : Container) (key : String) (a : ApplyArgs) : Option Container :=
  let c1 : Option Container :=
    if containsC c key then some c
    else (createVal a.ptype a.default).map (fun v => setVal c key v)
  c1.map (fun c1 => setMetaU (ensureStep c1 key a.ptype) key a)

/-- The per-target body of the batch loop (source lines 292-306): skip an
existing key when not overwriting, else call `idprop_apply_ui`. -/
def applyWithPolicy (c : Container) (k : String) (a : ApplyArgs)
    (overwrite : Bool) : Option Container :=
  if containsC c k && !overwrite then some c else applyUi c k a

-- ---------- The CPG_Props property group (source lines 104-201) ----------

/-- Model of the `CPG_Props` property group.  Two field names are slightly
renamed for the formalisation: `free_pfx` stands for the source field
`free_prefix` and `increment_as_pfx` for `increment_as_prefix`.  `count`
has UI minimum 1 and `increment_start_from` has UI minimum 0, hence the
`Nat` carriers. -/
structure CPGProps where
  count : Nat
  prop_type : PType
  int_default : Int
  int_min : Int
  int_max : Int
  float_default : Rat
  float_min : Rat
  float_max : Rat
  float_soft_min : Rat
  float_soft_max : Rat
  float_subtype : String
  bool_default : Bool
  string_default : String
  string_description : String
  base_name : String
  free_pfx : String
  free_suffix : String
  auto_increment : Bool
  increment_start_from : Nat
  increment_as_pfx : Bool
  overwrite_existing : Bool

-- ---------- Name composition (source lines 24-25 and 238-254) ----------

/-- Model of `zero_pad` (source lines 24-25): Python `f"{n:03d}_"`, the
decimal digits of `n` left-padded with zeros to a minimum width of 3,
followed by an underscore; wider numbers are not truncated. -/
def zero_pad (n : Nat) : String :=
  let s := Nat.repr n
  (if s.length < 3 then String.mk (List.replicate (3 - s.length) '0') ++ s else s)
    ++ "_"

/-- Effective starting index (source line 238): `increment_start_from` when
positive, else 1. -/
def effStart (p : CPGProps) : Nat :=
  if p.increment_start_from > 0 then p.increment_start_from else 1

/-- The `num` token of one loop iteration (source line 242): the padded
running index when auto increment is on, else the empty string. -/
def numberToken (p : CPGProps) (idx : Nat) : String :=
  if p.auto_increment then zero_pad idx else ""

/-- The ordered part list of one generated name (source lines 243-246). -/
def nameParts (p : CPGProps) (idx : Nat) : List String :=
  if p.increment_as_pfx then
    [p.free_pfx, numberToken p idx, p.base_name, p.free_suffix]
  else
    [p.free_pfx, p.base_name, numberToken p idx, p.free_suffix]

/-- Python `"".join(l)`: separator-free concatenation. -/
def concatAll : List String → String
  | [] => ""
  | x :: xs => x ++ concatAll xs

/-- One assembled property name (source line 249): the non-empty parts
joined with no separator. -/
def composedName (p : CPGProps) (idx : Nat) : String :=
  concatAll ((nameParts p idx).filter (fun q => q != ""))

/-- The name-generation facet of the batch loop (source lines 240-309):
the list of composed names for the given iteration count together with the
final value of the running index, which is incremented on every iteration. -/
def nameLoop (p : CPGProps) : Nat → Nat → List String × Nat
  | idx, 0 => ([], idx)
  | idx, n + 1 =>
    let rest := nameLoop p (idx + 1) n
    (composedName p idx :: rest.1, rest.2)

-- ---------- Per-type argument normalization (source lines 256-289) ----------

/-- The strip-and-drop-if-empty handling of the description
(source lines 263 and 300). -/
def descOf (p : CPGProps) : Option String :=
  let d := if p.string_description ≠ "" then p.string_description.trim else ""
  if d ≠ "" then some d else none

/-- The per-type argument block of `execute` (source lines 256-289): the
defaults, bounds (swapped into order when supplied reversed), subtype and
description passed to `idprop_apply_ui`. -/
def applyArgsOf (p : CPGProps) : ApplyArgs :=
  match p.prop_type with
  | .INT =>
    let mn := p.int_min
    let mx := p.int_max
    let b : Int × Int := if mn > mx then (mx, mn) else (mn, mx)
    ⟨.INT, some (.VInt p.int_default), some (.VInt b.1), some (.VInt b.2),
      none, none, descOf p, some "NONE"⟩
  | .FLOAT =>
    let b : Rat × Rat :=
      if p.float_min > p.float_max then (p.float_max, p.float_min)
      else (p.float_min, p.float_max)
    let sb : Rat × Rat :=
      if p.float_soft_min > p.float_soft_max then (p.float_soft_max, p.float_soft_min)
      else (p.float_soft_min, p.float_soft_max)
    ⟨.FLOAT, some (.VFloat p.float_default), some (.VFloat b.1), some (.VFloat b.2),
      some (.VFloat sb.1), some (.VFloat sb.2), descOf p, some p.float_subtype⟩
  | .BOOL =>
    ⟨.BOOL, some (.VBool p.bool_default), none, none, none, none,
      descOf p, some "NONE"⟩
  | .STRING =>
    ⟨.STRING, some (.VStr p.string_default), none, none, none, none,
      descOf p, some "NONE"⟩

-- ---------- Batch orchestration (source lines 238-312) ----------

/-- Outcome of `execute` as surfaced to the user: either the final INFO
report `"Created {count} custom propertie(s) on {len(idblocks)} target(s)."`
abstracted to its two numbers, or CANCELLED with the reported error text. -/
inductive ExecResult where
  | finished (createdReport : Nat) (targetReport : Nat)
  | cancelled (msg : String)
deriving DecidableEq, Repr

/-- The error text reported when a composed name is empty (source line 253). -/
def emptyNameMsg : String :=
  "Resulting property name is empty. Please set Name/Prefix/Suffix."

/-- The inner loop over targets (source lines 292-306): apply the name to
every target in order, skipping per policy; `none` models an uncaught
exception. -/
def applyAllT (ts : List Container) (k : String) (a : ApplyArgs)
    (overwrite : Bool) : Option (List Container) :=
  match ts with
  | [] => some []
  | c :: rest =>
    match applyWithPolicy c k a overwrite with
    | none => none
    | some c' =>
      match applyAllT rest k a overwrite with
      | none => none
      | some rs => some (c' :: rs)

/-- The outer batch loop of `execute` (source lines 240-312), counting down
the remaining iterations: compose the name, abort with the empty-name error
when it is empty, else write it to every target and advance the index. -/
def runLoop (p : CPGProps) : Nat → Nat → List Container →
    Option (ExecResult × List Container)
  | _, 0, ts => some (.finished p.count ts.length, ts)
  | idx, n + 1, ts =>
    let nm := composedName p idx
    if nm = "" then some (.cancelled emptyNameMsg, ts)
    else
      match applyAllT ts nm (applyArgsOf p) p.overwrite_existing with
      | none => none
      | some ts' => runLoop p (idx + 1) n ts'

/-- The batch part of `execute` after target resolution (source lines
238-312): run the loop from the effective start index over all `count`
iterations. -/
def runCore (p : CPGProps) (ts : List Container) :
    Option (ExecResult × List Container) :=
  runLoop p (effStart p) p.count ts

-- ---------- ALL_MATERIALS target resolution (source lines 227-233) ----------

/-- A material datablock: an identity surrogate plus its display name.
Distinct `mid`s model distinct Python objects; Blender does not forbid two
distinct materials (e.g. from different libraries) sharing a name. -/
structure Material where
  mid : Nat
  mname : String
deriving DecidableEq, Repr

/-- Python dict insertion `d[k] = v`: replace the value at an existing key
in place, else append the pair. -/
def dictInsert (d : List (String × Material)) (k : String) (v : Material) :
    List (String × Material) :=
  if d.any (fun p => p.1 = k) then
    d.map (fun p => if p.1 = k then (p.1, v) else p)
  else
    d ++ [(k, v)]

/-- The de-duplication of `execute` (source line 233):
`list({m.name: m for m in mats}.values())` — a dict keyed by material NAME,
in first-occurrence order, keeping the last material per name. -/
def dedupMats (mats : List Material) : List Material :=
  (mats.foldl (fun d m => dictInsert d m.mname m) []).map Prod.snd

/-- Outcome of target resolution: CANCELLED with an error text, or the
resolved material list. -/
inductive Resolved where
  | err (msg : String)
  | ok (mats : List Material)
deriving DecidableEq, Repr

/-- The `ALL_MATERIALS` branch of `execute` (source lines 227-233): gather
the materials of the populated slots, fail when there are none, else
de-duplicate. -/
def resolveAllMaterials (slots : List (Option Material)) : Resolved :=
  let mats := slots.filterMap (fun s => s)
  if mats.isEmpty then .err "No materials on object."
  else .ok (dedupMats mats)

-- ---------- Concrete instances used in witnesses ----------

/-- The default values of every `CPG_Props` field (source lines 104-201). -/
def defaultProps : CPGProps :=
  { count := 1, prop_type := .INT, int_default := 0, int_min := 0,
    int_max := 100, float_default := 0, float_min := 0, float_max := 1,
    float_soft_min := 0, float_soft_max := 1, float_subtype := "NONE",
    bool_default := false, string_default := "", string_description := "",
    base_name := "prop", free_pfx := "", free_suffix := "",
    auto_increment := false, increment_start_from := 0,
    increment_as_pfx := true, overwrite_existing := true }

/-- Numbering on, base name "prop", three items (spec section 8, bullet 1). -/
def p1 : CPGProps := { defaultProps with count := 3, auto_increment := true }

/-- The end-to-end request of spec section 8, last bullet. -/
def c2props : CPGProps :=
  { defaultProps with
    count := 2
    prop_type := .BOOL
    bool_default := true
    base_name := "flag"
    auto_increment := true }

/-- Entry written for each generated flag key in the end-to-end run. -/
def c2entry : Entry :=
  ⟨.VBool true, ⟨none, none, none, none, none, some (.VBool true), none⟩⟩

/-- Final state of each of the two target containers in the end-to-end run. -/
def c2cont : Container := [("001_flag", c2entry), ("002_flag", c2entry)]

/-- An IntSpec-shaped argument record. -/
def c3args : ApplyArgs :=
  ⟨.INT, some (.VInt 5), some (.VInt 0), some (.VInt 10), none, none,
    none, some "NONE"⟩

/-- A container whose existing value cannot be coerced to INT. -/
def c3cont : Container := [("x", ⟨.VStr "abc", UiMeta.empty⟩)]

/-- A container already holding key "x" with integer value 7. -/
def c4cont : Container := [("x", ⟨.VInt 7, UiMeta.empty⟩)]

/-- All name parts empty and auto increment off: composes the empty name. -/
def p5 : CPGProps := { defaultProps with base_name := "" }

/-- Reversed caller-supplied int bounds. -/
def p6 : CPGProps :=
  { defaultProps with
    prop_type := .FLOAT
    float_min := 10
    float_max := 0
    float_soft_min := 5
    float_soft_max := 1
    int_min := 10
    int_max := 0 }

/-- No numbering, with free-text parts (spec section 8, bullet 3). -/
def p7 : CPGProps :=
  { defaultProps with count := 2, free_pfx := "a_", free_suffix := "_b" }

/-- A BoolSpec-shaped argument record. -/
def c8args : ApplyArgs :=
  ⟨.BOOL, some (.VBool true), none, none, none, none, none, some "NONE"⟩

/-- The container produced by applying `c8args` to key "k" of an empty
container. -/
def c8res : Container :=
  [("k", ⟨.VBool true, ⟨none, none, none, none, none, some (.VBool true), none⟩⟩)]

/-- All name parts empty and auto increment off (for the atomicity claim). -/
def p10 : CPGProps := { defaultProps with base_name := "" }

/-- Two DISTINCT materials sharing one name. -/
def m1 : Material := ⟨1, "mat"⟩

/-- Second material with the same name as `m1` but a different identity. -/
def m2 : Material := ⟨2, "mat"⟩

/-- Slot list carrying the two like-named materials. -/
def slots9 : List (Option Material) := [some m1, none, some m2]

-- ---------- Helper lemmas: name loop ----------

lemma nameLoop_get (p : CPGProps) :
    ∀ (n i idx : Nat), i < n →
      ((nameLoop p idx n).1).get? i = some (composedName p (idx + i)) := by
  intro n
  induction n with
  | zero => intro i idx h; exact absurd h (Nat.not_lt_zero i)
  | succ n ih =>
    intro i idx h
    cases i with
    | zero => simp [nameLoop]
    | succ i =>
      have hrec := ih i (idx + 1) (Nat.lt_of_succ_lt_succ h)
      have harith : idx + 1 + i = idx + (i + 1) := by omega
      rw [harith] at hrec
      simpa [nameLoop] using hrec

lemma nameLoop_snd (p : CPGProps) :
    ∀ (n idx : Nat), (nameLoop p idx n).2 = idx + n := by
  intro n
  induction n with
  | zero => intro idx; simp [nameLoop]
  | succ n ih => intro idx; simp [nameLoop, ih]; omega

lemma composedName_const (p : CPGProps) (h : p.auto_increment = false)
    (idx : Nat) :
    composedName p idx =
      concatAll (([p.free_pfx, p.base_name, p.free_suffix]).filter
        (fun q => q != "")) := by
  unfold composedName nameParts numberToken
  rw [h]
  cases hp : p.increment_as_pfx <;> simp [List.filter]

lemma nameLoop_const (p : CPGProps) (h : p.auto_increment = false) :
    ∀ (n idx : Nat),
      (nameLoop p idx n).1 =
        List.replicate n (concatAll (([p.free_pfx, p.base_name,
          p.free_suffix]).filter (fun q => q != ""))) := by
  intro n
  induction n with
  | zero => intro idx; simp [nameLoop]
  | succ n ih =>
    intro idx
    simp [nameLoop, List.replicate, ih (idx + 1), composedName_const p h idx]

-- ---------- Helper lemmas: emptiness of composed names ----------

lemma str_append_eq_empty_iff (x y : String) :
    x ++ y = "" ↔ x = "" ∧ y = "" := by
  constructor
  · intro h
    have hd : (x ++ y).data = "".data := congrArg String.data h
    rw [String.data_append] at hd
    have hxy := List.append_eq_nil.1 hd
    exact ⟨String.ext hxy.1, String.ext hxy.2⟩
  · rintro ⟨rfl, rfl⟩
    decide

lemma concatAll_eq_empty_iff (l : List String) :
    concatAll l = "" ↔ ∀ x ∈ l, x = "" := by
  induction l with
  | nil => simp [concatAll]
  | cons x xs ih => simp [concatAll, str_append_eq_empty_iff, ih]

lemma zero_pad_ne_empty (n : Nat) : zero_pad n ≠ "" := by
  unfold zero_pad
  intro h
  rcases (str_append_eq_empty_iff _ _).1 h with ⟨-, h2⟩
  exact absurd h2 (by decide)

/-- A composed name is empty exactly when every free-text part is empty and
auto increment is off (the number token is never empty when emitted). -/
lemma composedName_eq_empty_iff (p : CPGProps) (idx : Nat) :
    composedName p idx = "" ↔
      (p.free_pfx = "" ∧ p.base_name = "" ∧ p.free_suffix = "" ∧
        p.auto_increment = false) := by
  unfold composedName
  rw [concatAll_eq_empty_iff]
  constructor
  · intro h
    have hall : ∀ x ∈ nameParts p idx, x = "" := by
      intro x hx
      by_cases hxe : x = ""
      · exact hxe
      · exact h x (List.mem_filter.2 ⟨hx, by simpa using hxe⟩)
    have htok : numberToken p idx = "" := by
      apply hall
      unfold nameParts
      cases hp : p.increment_as_pfx <;> simp
    have hai : p.auto_increment = false := by
      by_contra hai
      rw [Bool.not_eq_false] at hai
      exact zero_pad_ne_empty idx (by simpa [numberToken, hai] using htok)
    refine ⟨?_, ?_, ?_, hai⟩ <;>
      · apply hall
        unfold nameParts
        cases hp : p.increment_as_pfx <;> simp
  · rintro ⟨h1, h2, h3, h4⟩
    intro x hx
    have hx' := List.mem_filter.1 hx |>.1
    unfold nameParts numberToken at hx'
    rw [h4] at hx'
    cases hp : p.increment_as_pfx <;> rw [hp] at hx' <;>
      simp [h1, h2, h3] at hx' <;> simp [hx']

-- ---------- Helper lemmas: container operations ----------

lemma contains_of_lookup_some {c : Container} {k : String} {e : Entry}
    (h : lookupC c k = some e) : containsC c k = true := by
  unfold containsC
  rw [h]
  rfl

lemma lookup_none_iff (c : Container) (k : String) :
    lookupC c k = none ↔ ∀ q ∈ c, q.1 ≠ k := by
  induction c with
  | nil => simp [lookupC]
  | cons p rest ih =>
    simp only [lookupC]
    by_cases hp : p.1 = k
    · simp [hp]
    · simp [hp, ih]

lemma lookup_mapVal (c : Container) (k : String) (v : Value) :
    lookupC (c.map (fun p => if p.1 = k then (p.1, (⟨v, p.2.meta⟩ : Entry))
      else p)) k = (lookupC c k).map (fun e => ⟨v, e.meta⟩) := by
  induction c with
  | nil => rfl
  | cons p rest ih =>
    simp only [List.map_cons, lookupC]
    by_cases hp : p.1 = k
    · simp [hp]
    · simp [hp, ih]

lemma lookup_setMetaU (c : Container) (k : String) (a : ApplyArgs) :
    lookupC (setMetaU c k a) k =
      (lookupC c k).map (fun e => ⟨e.val, updMeta e.meta a⟩) := by
  unfold setMetaU
  induction c with
  | nil => rfl
  | cons p rest ih =>
    simp only [List.map_cons, lookupC]
    by_cases hp : p.1 = k
    · simp [hp]
    · simp [hp, ih]

lemma lookup_append_single (c : Container) (k : String) (e0 : Entry)
    (h : lookupC c k = none) : lookupC (c ++ [(k, e0)]) k = some e0 := by
  induction c with
  | nil => simp [lookupC]
  | cons p rest ih =>
    rw [lookupC] at h
    by_cases hp : p.1 = k
    · rw [if_pos hp] at h
      exact absurd h (by simp)
    · rw [if_neg hp] at h
      simpa [lookupC, hp] using ih h

lemma lookup_setVal_present {c : Container} {k : String} {e : Entry}
    (v : Value) (h : lookupC c k = some e) :
    lookupC (setVal c k v) k = some ⟨v, e.meta⟩ := by
  unfold setVal
  rw [if_pos (contains_of_lookup_some h), lookup_mapVal, h]
  rfl

lemma lookup_setVal_absent {c : Container} {k : String} (v : Value)
    (h : lookupC c k = none) :
    lookupC (setVal c k v) k = some ⟨v, UiMeta.empty⟩ := by
  unfold setVal containsC
  rw [h]
  exact lookup_append_single c k _ h

lemma vals_setVal {c : Container} {k : String} {v : Value} :
    ∀ q ∈ setVal c k v, q.1 = k → q.2.val = v := by
  intro q hq hk
  unfold setVal at hq
  by_cases hc : containsC c k
  · rw [if_pos hc] at hq
    rcases List.mem_map.1 hq with ⟨r, -, hr⟩
    by_cases hrk : r.1 = k
    · rw [if_pos hrk] at hr
      rw [← hr]
    · rw [if_neg hrk] at hr
      exact absurd (hr ▸ hk) hrk
  · rw [if_neg hc] at hq
    rcases List.mem_append.1 hq with hq1 | hq2
    · have := (lookup_none_iff c k).1 ?_ q hq1
      · exact absurd hk this
      · unfold containsC at hc
        cases hl : lookupC c k
        · rfl
        · exact absurd (by rw [hl]; rfl) hc
    · rcases List.mem_singleton.1 hq2 with rfl
      rfl

lemma mem_setMetaU {c : Container} {k : String} {a : ApplyArgs} {q : String × Entry}
    (hq : q ∈ setMetaU c k a) :
    ∃ r ∈ c, q.1 = r.1 ∧ q.2.val = r.2.val ∧
      q.2.meta = (if r.1 = k then updMeta r.2.meta a else r.2.meta) := by
  unfold setMetaU at hq
  rcases List.mem_map.1 hq with ⟨r, hr, hrq⟩
  refine ⟨r, hr, ?_⟩
  by_cases hrk : r.1 = k
  · rw [if_pos hrk] at hrq
    rw [← hrq, if_pos hrk]
    exact ⟨rfl, rfl, rfl⟩
  · rw [if_neg hrk] at hrq
    rw [← hrq, if_neg hrk]
    exact ⟨rfl, rfl, rfl⟩

lemma mapVal_id {k : String} {v : Value} :
    ∀ (c : Container), (∀ q ∈ c, q.1 = k → q.2.val = v) →
      c.map (fun p => if p.1 = k then (p.1, (⟨v, p.2.meta⟩ : Entry)) else p) = c := by
  intro c
  induction c with
  | nil => intro _; rfl
  | cons p rest ih =>
    intro h2
    have hp : (if p.1 = k then (p.1, (⟨v, p.2.meta⟩ : Entry)) else p) = p := by
      by_cases hpk : p.1 = k
      · rw [if_pos hpk]
        have : p.2.val = v := h2 p (List.mem_cons_self p rest) hpk
        rw [← this]
      · rw [if_neg hpk]
    simp only [List.map_cons]
    rw [hp, ih (fun q hq hk => h2 q (List.mem_cons_of_mem p hq) hk)]

lemma setVal_id {c : Container} {k : String} {v : Value}
    (h1 : containsC c k = true) (h2 : ∀ q ∈ c, q.1 = k → q.2.val = v) :
    setVal c k v = c := by
  unfold setVal
  rw [if_pos h1]
  exact mapVal_id c h2

lemma setMetaU_id {k : String} {a : ApplyArgs} :
    ∀ (c : Container), (∀ q ∈ c, q.1 = k → updMeta q.2.meta a = q.2.meta) →
      setMetaU c k a = c := by
  intro c
  induction c with
  | nil => intro _; rfl
  | cons p rest ih =>
    intro h
    have hp : (if p.1 = k then (p.1, (⟨p.2.val, updMeta p.2.meta a⟩ : Entry))
        else p) = p := by
      by_cases hpk : p.1 = k
      · rw [if_pos hpk, h p (List.mem_cons_self p rest) hpk]
      · rw [if_neg hpk]
    unfold setMetaU at ih ⊢
    simp only [List.map_cons]
    rw [hp, ih (fun q hq hk => h q (List.mem_cons_of_mem p hq) hk)]

lemma oupd_idem {α : Type} (x y : Option α) : oupd x (oupd x y) = oupd x y := by
  cases x <;> rfl

lemma updMeta_idem (m : UiMeta) (a : ApplyArgs) :
    updMeta (updMeta m a) a = updMeta m a := by
  unfold updMeta
  simp only [oupd_idem]

lemma lookup_none_of_not_contains {c : Container} {k : String}
    (h : ¬ containsC c k = true) : lookupC c k = none := by
  unfold containsC at h
  cases hl : lookupC c k with
  | none => rfl
  | some e => exact absurd (by rw [hl]; rfl) h

lemma coerce_idem {t : PType} {v w : Value}
    (h : coerceVal t v = some w) : coerceVal t w = some w := by
  cases t with
  | INT =>
    unfold coerceVal at h ⊢
    cases hv : pyIntOfVal v with
    | none => rw [hv] at h; exact absurd h (by simp)
    | some n =>
      rw [hv] at h
      have : w = .VInt n := by simpa using h.symm
      rw [this]
      rfl
  | FLOAT =>
    unfold coerceVal at h ⊢
    cases hv : pyFloatOfVal v with
    | none => rw [hv] at h; exact absurd h (by simp)
    | some q =>
      rw [hv] at h
      have : w = .VFloat q := by simpa using h.symm
      rw [this]
      rfl
  | BOOL =>
    unfold coerceVal at h ⊢
    have : w = .VBool (pyBoolOfVal v) := by simpa using h.symm
    rw [this]
    rfl
  | STRING =>
    unfold coerceVal at h ⊢
    have : w = .VStr (pyStrOfVal v) := by simpa using h.symm
    rw [this]
    rfl

-- ---------- Helper lemmas: shape of an idprop_apply_ui call ----------

lemma applyUi_present {c : Container} {k : String} (a : ApplyArgs) {e : Entry}
    (h : lookupC c k = some e) :
    applyUi c k a = some (setMetaU (ensureStep c k a.ptype) k a) := by
  unfold applyUi
  rw [if_pos (contains_of_lookup_some h)]
  rfl

lemma applyUi_absent {c : Container} {k : String} (a : ApplyArgs) {v0 : Value}
    (h : lookupC c k = none) (hv : createVal a.ptype a.default = some v0) :
    applyUi c k a =
      some (setMetaU (ensureStep (setVal c k v0) k a.ptype) k a) := by
  unfold applyUi
  have hc : ¬ containsC c k = true := by
    unfold containsC
    rw [h]
    simp
  rw [if_neg hc, hv]
  rfl

/-- Every successful `idprop_apply_ui` call produces a container of the form
"metadata applied after type-ensuring on a state where the key is bound". -/
lemma applyUi_shape {c : Container} {k : String} {a : ApplyArgs} {c' : Container}
    (h : applyUi c k a = some c') :
    ∃ c1 e1, lookupC c1 k = some e1 ∧
      c' = setMetaU (ensureStep c1 k a.ptype) k a := by
  by_cases hc : containsC c k
  · have he1 : ∃ e1, lookupC c k = some e1 := by
      unfold containsC at hc
      exact Option.isSome_iff_exists.1 hc
    obtain ⟨e1, he1⟩ := he1
    rw [applyUi_present a he1] at h
    exact ⟨c, e1, he1, (Option.some.inj h).symm⟩
  · have hlk : lookupC c k = none := lookup_none_of_not_contains hc
    cases hv : createVal a.ptype a.default with
    | none =>
      unfold applyUi at h
      rw [if_neg hc, hv] at h
      exact absurd h (by simp)
    | some v0 =>
      rw [applyUi_absent a hlk hv] at h
      exact ⟨setVal c k v0, ⟨v0, UiMeta.empty⟩, lookup_setVal_absent v0 hlk,
        (Option.some.inj h).symm⟩

/-- Applying `idprop_apply_ui` to its own output is the identity: the value
is already of the ensured type and the metadata merge is idempotent. -/
lemma applyUi_self (c1 : Container) (k : String) (a : ApplyArgs) (e1 : Entry)
    (h : lookupC c1 k = some e1) :
    applyUi (setMetaU (ensureStep c1 k a.ptype) k a) k a
      = some (setMetaU (ensureStep c1 k a.ptype) k a) := by
  cases hco : coerceVal a.ptype e1.val with
  | some w =>
    have hens : ensureStep c1 k a.ptype = setVal c1 k w := by
      simp only [ensureStep, h, hco]
    rw [hens]
    have hl2 : lookupC (setVal c1 k w) k = some ⟨w, e1.meta⟩ :=
      lookup_setVal_present w h
    have hl' : lookupC (setMetaU (setVal c1 k w) k a) k =
        some ⟨w, updMeta e1.meta a⟩ := by
      rw [lookup_setMetaU, hl2]
      rfl
    have hvals : ∀ q ∈ setMetaU (setVal c1 k w) k a, q.1 = k → q.2.val = w := by
      intro q hq hk
      rcases mem_setMetaU hq with ⟨r, hr, hq1, hq2, -⟩
      have hrk : r.1 = k := by rw [← hq1]; exact hk
      rw [hq2]
      exact vals_setVal r hr hrk
    have hmetas : ∀ q ∈ setMetaU (setVal c1 k w) k a, q.1 = k →
        updMeta q.2.meta a = q.2.meta := by
      intro q hq hk
      rcases mem_setMetaU hq with ⟨r, hr, hq1, -, hq3⟩
      have hrk : r.1 = k := by rw [← hq1]; exact hk
      rw [hq3, if_pos hrk, updMeta_idem]
    have hcont' : containsC (setMetaU (setVal c1 k w) k a) k = true :=
      contains_of_lookup_some hl'
    rw [applyUi_present a hl']
    have hens' : ensureStep (setMetaU (setVal c1 k w) k a) k a.ptype
        = setMetaU (setVal c1 k w) k a := by
      simp only [ensureStep, hl', coerce_idem hco]
      exact setVal_id hcont' hvals
    rw [hens', setMetaU_id _ hmetas]
  | none =>
    have hens : ensureStep c1 k a.ptype = c1 := by
      simp only [ensureStep, h, hco]
    rw [hens]
    have hl' : lookupC (setMetaU c1 k a) k =
        some ⟨e1.val, updMeta e1.meta a⟩ := by
      rw [lookup_setMetaU, h]
      rfl
    have hmetas : ∀ q ∈ setMetaU c1 k a, q.1 = k →
        updMeta q.2.meta a = q.2.meta := by
      intro q hq hk
      rcases mem_setMetaU hq with ⟨r, hr, hq1, -, hq3⟩
      have hrk : r.1 = k := by rw [← hq1]; exact hk
      rw [hq3, if_pos hrk, updMeta_idem]
    rw [applyUi_present a hl']
    have hens' : ensureStep (setMetaU c1 k a) k a.ptype = setMetaU c1 k a := by
      simp only [ensureStep, hl', hco]
    rw [hens', setMetaU_id _ hmetas]

-- ---------- Helper lemmas: the batch loop ----------

/-- When some name part is non-empty (or numbering is on), no iteration of
the batch loop can report the empty-name error. -/
lemma runLoop_no_emptyCancel (p : CPGProps)
    (hne : ¬ (p.free_pfx = "" ∧ p.base_name = "" ∧ p.free_suffix = "" ∧
      p.auto_increment = false)) :
    ∀ (n idx : Nat) (ts ts' : List Container),
      runLoop p idx n ts ≠ some (.cancelled emptyNameMsg, ts') := by
  intro n
  induction n with
  | zero =>
    intro idx ts ts' h
    simp [runLoop] at h
  | succ n ih =>
    intro idx ts ts' h
    have hnm : ¬ composedName p idx = "" := fun hc =>
      hne ((composedName_eq_empty_iff p idx).1 hc)
    simp only [runLoop] at h
    rw [if_neg hnm] at h
    cases hA : applyAllT ts (composedName p idx) (applyArgsOf p)
        p.overwrite_existing with
    | none =>
      rw [hA] at h
      exact absurd h (by simp)
    | some ts2 =>
      rw [hA] at h
      exact ih (idx + 1) ts2 ts' h

-- ---------- Helper lemmas: name de-duplication dict ----------

lemma dictInsert_keyfact {d : List (String × Material)} {k : String}
    {v : Material} (h : ∀ q ∈ d, q.1 = q.2.mname) (hk : k = v.mname) :
    ∀ q ∈ dictInsert d k v, q.1 = q.2.mname := by
  intro q hq
  unfold dictInsert at hq
  by_cases hc : d.any (fun p => p.1 = k)
  · rw [if_pos hc] at hq
    rcases List.mem_map.1 hq with ⟨r, hr, hf⟩
    by_cases hrk : r.1 = k
    · rw [if_pos hrk] at hf
      rw [← hf]
      rw [hrk, hk]
    · rw [if_neg hrk] at hf
      rw [← hf]
      exact h r hr
  · rw [if_neg hc] at hq
    rcases List.mem_append.1 hq with hq1 | hq2
    · exact h q hq1
    · rcases List.mem_singleton.1 hq2 with rfl
      exact hk

lemma dictInsert_keys {d : List (String × Material)} {k : String}
    {v : Material} :
    (dictInsert d k v).map Prod.fst = d.map Prod.fst ∨
      ((dictInsert d k v).map Prod.fst = d.map Prod.fst ++ [k] ∧
        k ∉ d.map Prod.fst) := by
  unfold dictInsert
  by_cases hc : d.any (fun p => p.1 = k)
  · left
    rw [if_pos hc, List.map_map]
    apply List.map_congr_left
    intro q _
    by_cases hqk : q.1 = k
    · simp [hqk]
    · simp [hqk]
  · right
    rw [if_neg hc]
    constructor
    · simp
    · intro hm
      rcases List.mem_map.1 hm with ⟨q, hq, hq1⟩
      rw [List.any_eq_true] at hc
      exact hc ⟨q, hq, by simp [hq1]⟩

lemma dictInsert_keys_nodup {d : List (String × Material)} {k : String}
    {v : Material} (h : (d.map Prod.fst).Nodup) :
    ((dictInsert d k v).map Prod.fst).Nodup := by
  rcases dictInsert_keys (d := d) (k := k) (v := v) with hk1 | ⟨hk2, hk3⟩
  · rw [hk1]; exact h
  · rw [hk2]
    simp [List.nodup_append, h, hk3]

lemma dictInsert_snd_mem {d : List (String × Material)} {k : String}
    {v : Material} {q : String × Material} (hq : q ∈ dictInsert d k v) :
    q.2 = v ∨ q ∈ d := by
  unfold dictInsert at hq
  by_cases hc : d.any (fun p => p.1 = k)
  · rw [if_pos hc] at hq
    rcases List.mem_map.1 hq with ⟨r, hr, hf⟩
    by_cases hrk : r.1 = k
    · rw [if_pos hrk] at hf
      left
      rw [← hf]
    · rw [if_neg hrk] at hf
      right
      rw [← hf]
      exact hr
  · rw [if_neg hc] at hq
    rcases List.mem_append.1 hq with hq1 | hq2
    · right; exact hq1
    · rcases List.mem_singleton.1 hq2 with rfl
      left
      rfl

lemma dictInsert_covers {d : List (String × Material)} (k : String)
    (v : Material) : ∃ q ∈ dictInsert d k v, q.1 = k := by
  unfold dictInsert
  by_cases hc : d.any (fun p => p.1 = k)
  · rw [if_pos hc]
    rw [List.any_eq_true] at hc
    rcases hc with ⟨r, hr, hrk⟩
    rw [decide_eq_true_eq] at hrk
    refine ⟨(r.1, v), List.mem_map.2 ⟨r, hr, by rw [if_pos hrk]⟩, hrk⟩
  · rw [if_neg hc]
    exact ⟨(k, v), List.mem_append.2 (Or.inr (List.mem_singleton.2 rfl)), rfl⟩

lemma dictInsert_covers_mono {d : List (String × Material)} {k0 k : String}
    {v : Material} (h : ∃ q ∈ d, q.1 = k0) :
    ∃ q ∈ dictInsert d k v, q.1 = k0 := by
  rcases h with ⟨q, hq, hqk⟩
  unfold dictInsert
  by_cases hc : d.any (fun p => p.1 = k)
  · rw [if_pos hc]
    by_cases hqk' : q.1 = k
    · exact ⟨(q.1, v), List.mem_map.2 ⟨q, hq, by rw [if_pos hqk']⟩, hqk⟩
    · exact ⟨q, List.mem_map.2 ⟨q, hq, by rw [if_neg hqk']⟩, hqk⟩
  · rw [if_neg hc]
    exact ⟨q, List.mem_append.2 (Or.inl hq), hqk⟩

/-- Invariants of the name-keyed dict built by the de-duplication fold:
keys mirror the value names, keys stay distinct, values come from the
inserted materials (or the seed), and every inserted material name is
covered. -/
lemma fold_dedup_props :
    ∀ (mats : List Material) (d : List (String × Material)),
      (∀ q ∈ d, q.1 = q.2.mname) → (d.map Prod.fst).Nodup →
      (∀ q ∈ mats.foldl (fun acc m => dictInsert acc m.mname m) d,
          q.1 = q.2.mname) ∧
      ((mats.foldl (fun acc m => dictInsert acc m.mname m) d).map
          Prod.fst).Nodup ∧
      (∀ q ∈ mats.foldl (fun acc m => dictInsert acc m.mname m) d,
          q.2 ∈ mats ∨ q ∈ d) ∧
      (∀ m ∈ mats, ∃ q ∈ mats.foldl (fun acc m => dictInsert acc m.mname m) d,
          q.1 = m.mname) ∧
      (∀ k0, (∃ q ∈ d, q.1 = k0) →
        ∃ q ∈ mats.foldl (fun acc m => dictInsert acc m.mname m) d,
          q.1 = k0) := by
  intro mats
  induction mats with
  | nil =>
    intro d h1 h2
    exact ⟨h1, h2, fun q hq => Or.inr hq, by simp, fun k0 h => h⟩
  | cons m rest ih =>
    intro d h1 h2
    have h1' : ∀ q ∈ dictInsert d m.mname m, q.1 = q.2.mname :=
      dictInsert_keyfact h1 rfl
    have h2' : ((dictInsert d m.mname m).map Prod.fst).Nodup :=
      dictInsert_keys_nodup h2
    obtain ⟨ih1, ih2, ih3, ih4, ih5⟩ := ih (dictInsert d m.mname m) h1' h2'
    simp only [List.foldl_cons]
    refine ⟨ih1, ih2, ?_, ?_, ?_⟩
    · intro q hq
      rcases ih3 q hq with hq1 | hq2
      · exact Or.inl (List.mem_cons_of_mem m hq1)
      · rcases dictInsert_snd_mem hq2 with hv | hd
        · exact Or.inl (by rw [hv]; exact List.mem_cons_self m rest)
        · exact Or.inr hd
    · intro m' hm'
      rcases List.mem_cons.1 hm' with rfl | hrest
      · exact ih5 m'.mname (dictInsert_covers m'.mname m')
      · exact ih4 m' hrest
    · intro k0 hk0
      exact ih5 k0 (dictInsert_covers_mono hk0)

-- ---------- Claims ----------

/-- C1: with auto_increment true and count at least 1, the i-th generated
name (0-indexed) is the separator-free concatenation of the non-empty parts
among [prefix, number_token, base_name, suffix] when number_as_prefix is
true, else [prefix, base_name, number_token, suffix], where number_token is
the running index (start_index if positive, else 1, plus i) rendered by
zero_pad: a zero-padded decimal of minimum width 3 followed by an
underscore, widening beyond 3 digits without truncation (1 yields "001_",
1000 yields "1000_"). -/
theorem c1_autoIncrement_names (p : CPGProps) (i : Nat)
    (h1 : p.auto_increment = true) (h2 : i < p.count) :
    ((nameLoop p (effStart p) p.count).1).get? i =
      some (concatAll ((if p.increment_as_pfx then
          [p.free_pfx, zero_pad (effStart p + i), p.base_name, p.free_suffix]
        else
          [p.free_pfx, p.base_name, zero_pad (effStart p + i),
            p.free_suffix]).filter (fun q => q != ""))) ∧
      zero_pad 1 = "001_" ∧ zero_pad 1000 = "1000_" := by
  refine ⟨?_, by decide, by decide⟩
  rw [nameLoop_get p p.count i (effStart p) h2]
  simp only [composedName, nameParts, numberToken, h1, if_true]

/-- Witness for c1_autoIncrement_names at the spec's own example: three
names from base "prop", start 0, number before the name; item 1 is
"002_prop". -/
theorem c1_witness :
    ((nameLoop p1 (effStart p1) p1.count).1).get? 1 = some "002_prop" ∧
      zero_pad 1 = "001_" := by
  have h := c1_autoIncrement_names p1 1 rfl (by decide)
  exact ⟨h.1.trans (by decide), h.2.1⟩

/-- C7: with auto_increment false, every generated name equals the
separator-free concatenation of the non-empty parts among prefix, base
name and suffix — independent of start index and numbering position — and
the running index still advances by 1 per iteration, ending at the
effective start plus the count. -/
theorem c7_no_increment_names (p : CPGProps) (h : p.auto_increment = false) :
    (nameLoop p (effStart p) p.count).1 =
      List.replicate p.count (concatAll (([p.free_pfx, p.base_name,
        p.free_suffix]).filter (fun q => q != ""))) ∧
      (nameLoop p (effStart p) p.count).2 = effStart p + p.count :=
  ⟨nameLoop_const p h p.count (effStart p), nameLoop_snd p p.count (effStart p)⟩

/-- Witness for c7_no_increment_names at the spec's own example: two names
from prefix "a_", base "prop", suffix "_b" are both "a_prop_b", and the
index has advanced from 1 to 3. -/
theorem c7_witness :
    (nameLoop p7 (effStart p7) p7.count).1 = ["a_prop_b", "a_prop_b"] ∧
      (nameLoop p7 (effStart p7) p7.count).2 = 3 := by
  have h := c7_no_increment_names p7 rfl
  exact ⟨h.1.trans (by decide), h.2.trans (by decide)⟩

/-- C6: the arguments passed to the writer have ordered bounds: for INT the
min/max pair is the caller's pair swapped into order, and for FLOAT both
the min/max pair and the soft pair are independently swapped into order, so
min is at most max afterwards. -/
theorem c6_bounds_normalized (p : CPGProps) :
    (p.prop_type = .INT →
      (applyArgsOf p).min_val = some (.VInt (min p.int_min p.int_max)) ∧
      (applyArgsOf p).max_val = some (.VInt (max p.int_min p.int_max)) ∧
      min p.int_min p.int_max ≤ max p.int_min p.int_max) ∧
    (p.prop_type = .FLOAT →
      (applyArgsOf p).min_val = some (.VFloat (min p.float_min p.float_max)) ∧
      (applyArgsOf p).max_val = some (.VFloat (max p.float_min p.float_max)) ∧
      (applyArgsOf p).soft_min =
        some (.VFloat (min p.float_soft_min p.float_soft_max)) ∧
      (applyArgsOf p).soft_max =
        some (.VFloat (max p.float_soft_min p.float_soft_max)) ∧
      min p.float_min p.float_max ≤ max p.float_min p.float_max ∧
      min p.float_soft_min p.float_soft_max ≤
        max p.float_soft_min p.float_soft_max) := by
  constructor
  · intro ht
    simp only [applyArgsOf, ht]
    by_cases hc : p.int_min > p.int_max
    · rw [if_pos hc, min_eq_right (le_of_lt hc), max_eq_left (le_of_lt hc)]
      exact ⟨rfl, rfl, le_of_lt hc⟩
    · push_neg at hc
      rw [if_neg (not_lt.2 hc), min_eq_left hc, max_eq_right hc]
      exact ⟨rfl, rfl, hc⟩
  · intro ht
    simp only [applyArgsOf, ht]
    by_cases hc : p.float_min > p.float_max <;>
      by_cases hs : p.float_soft_min > p.float_soft_max
    · rw [if_pos hc, if_pos hs, min_eq_right (le_of_lt hc),
        max_eq_left (le_of_lt hc), min_eq_right (le_of_lt hs),
        max_eq_left (le_of_lt hs)]
      exact ⟨rfl, rfl, rfl, rfl, le_of_lt hc, le_of_lt hs⟩
    · push_neg at hs
      rw [if_pos hc, if_neg (not_lt.2 hs), min_eq_right (le_of_lt hc),
        max_eq_left (le_of_lt hc), min_eq_left hs, max_eq_right hs]
      exact ⟨rfl, rfl, rfl, rfl, le_of_lt hc, hs⟩
    · push_neg at hc
      rw [if_neg (not_lt.2 hc), if_pos hs, min_eq_left hc, max_eq_right hc,
        min_eq_right (le_of_lt hs), max_eq_left (le_of_lt hs)]
      exact ⟨rfl, rfl, rfl, rfl, hc, le_of_lt hs⟩
    · push_neg at hc
      push_neg at hs
      rw [if_neg (not_lt.2 hc), if_neg (not_lt.2 hs), min_eq_left hc,
        max_eq_right hc, min_eq_left hs, max_eq_right hs]
      exact ⟨rfl, rfl, rfl, rfl, hc, hs⟩

/-- Witness for c6_bounds_normalized: a FLOAT request with caller-supplied
min 10, max 0 and soft bounds 5, 1 is normalized to min 0, max 10 and soft
bounds 1, 5 before any write. -/
theorem c6_witness :
    (applyArgsOf p6).min_val = some (.VFloat 0) ∧
      (applyArgsOf p6).max_val = some (.VFloat 10) ∧
      (applyArgsOf p6).soft_min = some (.VFloat 1) ∧
      (applyArgsOf p6).soft_max = some (.VFloat 5) := by
  have h := (c6_bounds_normalized p6).2 rfl
  exact ⟨h.1.trans (by decide), h.2.1.trans (by decide),
    h.2.2.1.trans (by decide), h.2.2.2.1.trans (by decide)⟩

/-- C3: applying with overwrite true to an existing key converts the stored
value to the descriptor's kind — leaving the prior raw value untouched when
the conversion raises — and then applies the UI metadata; the stored value
is a function of the prior value only, never reset to the default. -/
theorem c3_overwrite_coerces (c : Container) (k : String) (a : ApplyArgs)
    (e : Entry) (h : lookupC c k = some e) :
    ∃ c', applyWithPolicy c k a true = some c' ∧
      lookupC c' k =
        some ⟨(coerceVal a.ptype e.val).getD e.val, updMeta e.meta a⟩ := by
  have hpol : applyWithPolicy c k a true = applyUi c k a := by
    unfold applyWithPolicy
    simp
  refine ⟨setMetaU (ensureStep c k a.ptype) k a, ?_, ?_⟩
  · rw [hpol]
    exact applyUi_present a h
  · cases hco : coerceVal a.ptype e.val with
    | some w =>
      have hens : ensureStep c k a.ptype = setVal c k w := by
        simp only [ensureStep, h, hco]
      rw [hens, lookup_setMetaU, lookup_setVal_present w h]
      simp
    | none =>
      have hens : ensureStep c k a.ptype = c := by
        simp only [ensureStep, h, hco]
      rw [hens, lookup_setMetaU, h]
      simp

/-- Witness for c3_overwrite_coerces: an existing "x" holding the
non-numeric string "abc" under an INT descriptor: the conversion raises,
so the raw value "abc" survives while metadata is applied. -/
theorem c3_witness :
    ∃ c', applyWithPolicy c3cont "x" c3args true = some c' ∧
      lookupC c' "x" = some ⟨(coerceVal c3args.ptype
        (Value.VStr "abc")).getD (Value.VStr "abc"),
        updMeta UiMeta.empty c3args⟩ :=
  c3_overwrite_coerces c3cont "x" c3args ⟨.VStr "abc", UiMeta.empty⟩ (by decide)

/-- C4: applying with overwrite false to a container that already holds the
key skips the container entirely, leaving value and metadata untouched. -/
theorem c4_skip_preserves (c : Container) (k : String) (a : ApplyArgs)
    (h : containsC c k = true) :
    applyWithPolicy c k a false = some c := by
  simp [applyWithPolicy, h]

/-- Witness for c4_skip_preserves at the spec's own example: a container
with "x" = 7 is returned unchanged. -/
theorem c4_witness :
    containsC c4cont "x" = true ∧
      applyWithPolicy c4cont "x" c3args false = some c4cont :=
  ⟨by decide, c4_skip_preserves c4cont "x" c3args (by decide)⟩

/-- C8: the apply-with-overwrite upsert is idempotent on container state:
feeding its own output back in with identical arguments returns that state
unchanged. -/
theorem c8_apply_idempotent (c : Container) (k : String) (a : ApplyArgs)
    (c' : Container) (h : applyWithPolicy c k a true = some c') :
    applyWithPolicy c' k a true = some c' := by
  have hpol : ∀ c0 : Container, applyWithPolicy c0 k a true = applyUi c0 k a := by
    intro c0
    unfold applyWithPolicy
    simp
  rw [hpol] at h
  rw [hpol]
  obtain ⟨c1, e1, hl, rfl⟩ := applyUi_shape h
  exact applyUi_self c1 k a e1 hl

/-- Witness for c8_apply_idempotent: creating "k" as a BOOL in an empty
container yields c8res, and applying again yields c8res unchanged. -/
theorem c8_witness :
    applyWithPolicy ([] : Container) "k" c8args true = some c8res ∧
      applyWithPolicy c8res "k" c8args true = some c8res :=
  ⟨by decide, c8_apply_idempotent [] "k" c8args c8res (by decide)⟩

/-- C5: if some generated name of the batch is the empty string the run
aborts with the empty-name error before writing anything for that name or
any later one, leaving the targets exactly as written so far (the check
happens per generated name, and an empty name can only arise with auto
increment off, whence it already strikes on the first iteration, so
nothing has been written at all).  This covers in particular an all-empty
naming config with auto increment off. -/
theorem c5_emptyName_aborts (p : CPGProps) (ts : List Container)
    (h1 : 1 ≤ p.count)
    (h2 : ∃ i, i < p.count ∧ composedName p (effStart p + i) = "") :
    runCore p ts = some (.cancelled emptyNameMsg, ts) := by
  obtain ⟨i, hi, hempty⟩ := h2
  have hP := (composedName_eq_empty_iff p (effStart p + i)).1 hempty
  obtain ⟨m, hm⟩ : ∃ m, p.count = m + 1 := ⟨p.count - 1, by omega⟩
  unfold runCore
  rw [hm]
  simp only [runLoop]
  rw [if_pos ((composedName_eq_empty_iff p (effStart p)).2 hP)]

/-- Witness for c5_emptyName_aborts: base name, prefix and suffix all empty
with auto increment off aborts with the empty-name error, with the single
target container left untouched. -/
theorem c5_witness :
    runCore p5 [([] : Container)] =
      some (.cancelled emptyNameMsg, [([] : Container)]) :=
  c5_emptyName_aborts p5 [[]] (by decide) ⟨0, by decide, by decide⟩

/-- C10: a run that fails with the empty-name error has modified no
container at all: an empty composed name forces auto increment off, whence
the very first iteration already aborts, before any write. -/
theorem c10_emptyName_atomic (p : CPGProps) (ts ts' : List Container)
    (h : runCore p ts = some (.cancelled emptyNameMsg, ts')) : ts' = ts := by
  by_cases hP : (p.free_pfx = "" ∧ p.base_name = "" ∧ p.free_suffix = "" ∧
      p.auto_increment = false)
  · unfold runCore at h
    cases hn : p.count with
    | zero =>
      rw [hn] at h
      simp [runLoop] at h
    | succ m =>
      rw [hn] at h
      simp only [runLoop] at h
      rw [if_pos ((composedName_eq_empty_iff p (effStart p)).2 hP)] at h
      exact (congrArg Prod.snd (Option.some.inj h)).symm
  · exact absurd h (runLoop_no_emptyCancel p hP p.count (effStart p) ts ts')

/-- Witness for c10_emptyName_atomic: the all-empty naming config fails
with the empty-name error and the target list is returned unchanged. -/
theorem c10_witness :
    runCore p10 [([] : Container)] =
      some (.cancelled emptyNameMsg, [([] : Container)]) ∧
      c4cont = c4cont := by
  have hrun : runCore p10 [([] : Container)] =
      some (.cancelled emptyNameMsg, [([] : Container)]) := by decide
  exact ⟨(c10_emptyName_atomic p10 [[]] [[]] hrun) ▸ hrun, rfl⟩

/-- C2 counterexample: on the end-to-end request (count 2, BoolSpec default
true, base "flag", numbering on and prefixed, start 0, two empty targets,
overwrite on) the run does produce keys "001_flag" and "002_flag" with
value true in both containers, but its summary reports 2 properties
created (the number of generated names) and 2 targets — not a created
count of 4. -/
theorem c2_createdReport_counterexample :
    runCore c2props [[], []] = some (.finished 2 2, [c2cont, c2cont]) ∧
      ExecResult.finished 2 2 ≠ ExecResult.finished 4 2 :=
  ⟨by decide, by decide⟩

/-- C2 amended: the end-to-end request gives both targets the keys
"001_flag" and "002_flag", each storing boolean true, and the summary
reports 2 created (one per generated name, not per write) on 2 targets. -/
theorem c2_end_to_end_amended :
    runCore c2props [[], []] = some (.finished 2 2, [c2cont, c2cont]) ∧
      lookupC c2cont "001_flag" = some ⟨.VBool true,
        ⟨none, none, none, none, none, some (.VBool true), none⟩⟩ ∧
      lookupC c2cont "002_flag" = some ⟨.VBool true,
        ⟨none, none, none, none, none, some (.VBool true), none⟩⟩ :=
  ⟨by decide, by decide, by decide⟩

/-- C9 counterexample: ALL_MATERIALS de-duplicates by NAME, not by
identity: two distinct materials m1 and m2 sharing the name "mat" resolve
to the single target m2, so the distinct assigned material m1 appears in
no target. -/
theorem c9_identity_dedup_counterexample :
    resolveAllMaterials slots9 = .ok [m2] ∧ m1 ≠ m2 ∧
      slots9.filterMap (fun s => s) = [m1, m2] ∧ m1 ∉ [m2] :=
  ⟨by decide, by decide, by decide, by decide⟩

/-- C9 amended: the resolved ALL_MATERIALS target list is the assigned
materials de-duplicated by name: target names are pairwise distinct, every
target is an assigned material, and every assigned material's name is
carried by some target (so a material occupying several slots contributes
one target, and distinct materials sharing a name are merged into one). -/
theorem c9_name_dedup (slots : List (Option Material))
    (h : slots.filterMap (fun s => s) ≠ []) :
    ∃ r, resolveAllMaterials slots = .ok r ∧
      (r.map Material.mname).Nodup ∧
      (∀ t ∈ r, t ∈ slots.filterMap (fun s => s)) ∧
      (∀ m ∈ slots.filterMap (fun s => s), ∃ t ∈ r, t.mname = m.mname) := by
  have hne : (slots.filterMap (fun s => s)).isEmpty = false := by
    rw [List.isEmpty_eq_false]
    exact h
  refine ⟨dedupMats (slots.filterMap (fun s => s)), ?_, ?_, ?_, ?_⟩
  · simp [resolveAllMaterials, hne]
  all_goals
    obtain ⟨f1, f2, f3, f4, -⟩ :=
      fold_dedup_props (slots.filterMap (fun s => s)) [] (by simp) (by simp)
  · unfold dedupMats
    rw [List.map_map]
    have heq : List.map (Material.mname ∘ Prod.snd)
        ((slots.filterMap (fun s => s)).foldl
          (fun acc m => dictInsert acc m.mname m) []) =
        List.map Prod.fst ((slots.filterMap (fun s => s)).foldl
          (fun acc m => dictInsert acc m.mname m) []) :=
      List.map_congr_left (fun q hq => (f1 q hq).symm)
    rw [heq]
    exact f2
  · intro t ht
    unfold dedupMats at ht
    rcases List.mem_map.1 ht with ⟨q, hq, rfl⟩
    rcases f3 q hq with hm | hnil
    · exact hm
    · exact absurd hnil (by simp)
  · intro m hm
    rcases f4 m hm with ⟨q, hq, hq1⟩
    exact ⟨q.2, List.mem_map_of_mem Prod.snd hq, (f1 q hq).symm.trans hq1⟩

/-- Witness for c9_name_dedup on the two like-named materials: the
resolution succeeds with distinct names, targets drawn from the assigned
materials, and every assigned name covered. -/
theorem c9_witness :
    ∃ r, resolveAllMaterials slots9 = .ok r ∧
      (r.map Material.mname).Nodup ∧
      (∀ t ∈ r, t ∈ slots9.filterMap (fun s => s)) ∧
      (∀ m ∈ slots9.filterMap (fun s => s), ∃ t ∈ r, t.mname = m.mname) :=
  c9_name_dedup slots9 (by decide)

end CPG
